import Mathlib

/-!
Shallow embedding of the reactive dependency-tracking core of this
repository: the `Watcher` class of `src/platforms/web/runtime/patch.js`
(Observer) together with its interaction with `Dep` objects (Subjects),
and the children-normalization helpers of
`src/core/vdom/helpers/normalize-children.js`.

Subjects (`Dep`) and Observers (`Watcher`) are kept in explicit lists and
cross-reference each other by numeric id, so the mutually-referential
JS object graph becomes explicit state passing.  JS values relevant to the
change-detection logic are modelled by the inductive `Value` (objects and
arrays are represented by a reference id, so that `===` on them is
reference equality, and `typeof v === 'object' && v !== null` is the
`refV` test).
-/

namespace VueCore

abbrev WId := Nat
abbrev DId := Nat

/-- A JS value as far as the watcher logic observes it: primitives compare
by value, objects/arrays (`refV`) compare by reference identity. -/
inductive Value where
  | undef
  | nullV
  | boolV (b : Bool)
  | numV (n : Int)
  | strV (s : String)
  | refV (r : Nat)
deriving Repr, DecidableEq

/-- `isObject` from `../util/index`: `obj !== null && typeof obj === 'object'`.
Arrays are objects, so they are also `refV`. -/
def isObject : Value → Bool
  | .refV _ => true
  | _ => false

/-- A `Dep` (Subject): its unique id and its `subs` array of subscribed
watcher ids, in insertion order. -/
structure Dep where
  id : DId
  subs : List WId
deriving Repr, DecidableEq

/-- `Dep.addSub(sub)`: `this.subs.push(sub)`. -/
def Dep.addSub (d : Dep) (wid : WId) : Dep :=
  { d with subs := d.subs ++ [wid] }

/-- `Dep.removeSub(sub)`: `remove(this.subs, sub)` — removes the first
occurrence. -/
def Dep.removeSub (d : Dep) (wid : WId) : Dep :=
  { d with subs := d.subs.erase wid }

/-- The getter a watcher ended up with at construction: a directly supplied
function (opaque tag), a resolved dotted-path accessor, or the substituted
no-op. -/
inductive GetterSpec where
  | fnG (tag : Nat)
  | pathG (segs : List String)
  | noop
deriving Repr, DecidableEq

/-- The state of a `Watcher` (Observer).  `deps`/`newDeps` hold dep ids (the
JS arrays hold `Dep` references; ids identify them uniquely), and
`depIds`/`newDepIds` are the id sets, modelled as insertion-ordered lists. -/
structure Watcher where
  id : WId
  active : Bool
  deep : Bool
  user : Bool
  lazy : Bool
  sync : Bool
  dirty : Bool
  value : Value
  expression : String
  getter : GetterSpec
  deps : List DId
  newDeps : List DId
  depIds : List DId
  newDepIds : List DId
deriving Repr, DecidableEq

/-- `Watcher.addDep(dep)`: if `dep.id` is not yet in `newDepIds`, record it
in `newDepIds` and `newDeps`; additionally call `dep.addSub(this)` when the
id was not already in `depIds`.  Returns the updated watcher and dep. -/
def Watcher.addDep (w : Watcher) (d : Dep) : Watcher × Dep :=
  if d.id ∈ w.newDepIds then (w, d)
  else
    let w' := { w with newDepIds := w.newDepIds ++ [d.id],
                       newDeps := w.newDeps ++ [d.id] }
    if d.id ∈ w.depIds then (w', d) else (w', d.addSub w.id)

/-- One dependency registration against a store of deps: look up the dep
with the given id (the JS code holds a direct reference) and run `addDep`,
writing the updated dep back into the store. -/
def addDepIn (w : Watcher) (ds : List Dep) (did : DId) : Watcher × List Dep :=
  match ds.find? (fun d => d.id == did) with
  | none => (w, ds)
  | some d =>
      let p := w.addDep d
      (p.1, ds.map fun e => if e.id = did then p.2 else e)

/-- The dependency registrations performed during one evaluation of the
getter: each read of a reactive value triggers `dep.depend()` which calls
`addDep` on the current watcher, in read order. -/
def collectDeps (w : Watcher) (ds : List Dep) : List DId → Watcher × List Dep
  | [] => (w, ds)
  | r :: rs =>
      let p := addDepIn w ds r
      collectDeps p.1 p.2 rs

/-- The store effect of the `while (i--)` loop of `cleanupDeps` (and of
`teardown`): for each dep id in `l` (the watcher's `deps`, scanned from the
end), unless the id is in `newIds`, remove `wid` from that dep's `subs`. -/
def pruneList (wid : WId) (newIds : List DId) : List DId → List Dep → List Dep
  | [], ds => ds
  | did :: rest, ds =>
      pruneList wid newIds rest
        (if did ∈ newIds then ds
         else ds.map fun d => if d.id = did then d.removeSub wid else d)

/-- `Watcher.cleanupDeps()`: prune stale subscriptions, then swap
`deps`/`newDeps` and `depIds`/`newDepIds`, clearing the new ones. -/
def Watcher.cleanupDeps (w : Watcher) (ds : List Dep) : Watcher × List Dep :=
  let ds' := pruneList w.id w.newDepIds w.deps.reverse ds
  ({ w with depIds := w.newDepIds, newDepIds := [],
            deps := w.newDeps, newDeps := [] }, ds')

/-- The dependency-graph effect of one completed `Watcher.get()` whose
getter read the given dep ids in order: collect the new deps, then
`cleanupDeps`. -/
def runCollect (w : Watcher) (ds : List Dep) (reads : List DId) : Watcher × List Dep :=
  let p := collectDeps w ds reads
  p.1.cleanupDeps p.2

/-- The owner component (`vm`): its `_watchers` registry (watcher ids) and
its `_isBeingDestroyed` flag. -/
structure Vm where
  watchers : List WId
  isBeingDestroyed : Bool
deriving Repr, DecidableEq

/-- `Watcher.teardown()`: no-op if inactive; otherwise remove self from the
vm registry (skipped while the vm is being destroyed), remove self from
the `subs` of every dep in `deps`, and clear `active`. -/
def Watcher.teardown (w : Watcher) (ds : List Dep) (vm : Vm) :
    Watcher × List Dep × Vm :=
  if w.active then
    let vm' := if vm.isBeingDestroyed then vm
               else { vm with watchers := vm.watchers.erase w.id }
    let ds' := pruneList w.id [] w.deps.reverse ds
    ({ w with active := false }, ds', vm')
  else (w, ds, vm)

/-- Events emitted while `Watcher.get()` executes, in order: the
`pushTarget`/`popTarget` pair, the deep traversal, the `cleanupDeps` call
and any `handleError` report. -/
inductive Ev where
  | push (wid : WId)
  | pop
  | traverseEv
  | cleanup
  | report (ctx : String)
deriving Repr, DecidableEq

/-- Result of `Watcher.get()`: the returned value (`none` when the getter's
exception propagates to the caller) and the ordered event trace. -/
structure GetRes where
  value : Option Value
  trace : List Ev
deriving Repr, DecidableEq

/-- `Watcher.get()` with the getter's outcome supplied as `gres` (the getter
is arbitrary external code).  The `finally` block — deep traversal when
`deep`, `popTarget()`, `cleanupDeps()` — runs on every exit path: normal
return, user-routed error (value stays `undefined`), and rethrown error. -/
def Watcher.getEval (w : Watcher) (gres : Except Unit Value) : GetRes :=
  match gres with
  | .ok v =>
      { value := some v,
        trace := Ev.push w.id ::
          ((if w.deep then [Ev.traverseEv] else []) ++ [Ev.pop, Ev.cleanup]) }
  | .error _ =>
      if w.user then
        { value := some Value.undef,
          trace := Ev.push w.id ::
            (Ev.report ("getter for watcher \"" ++ w.expression ++ "\"") ::
              ((if w.deep then [Ev.traverseEv] else []) ++ [Ev.pop, Ev.cleanup])) }
      else
        { value := none,
          trace := Ev.push w.id ::
            ((if w.deep then [Ev.traverseEv] else []) ++ [Ev.pop, Ev.cleanup]) }

/-- Effect of one trace event on the global `targetStack` of the
Active-Observer Context (`pushTarget`/`popTarget` in `dep.js`). -/
def applyEv : List WId → Ev → List WId
  | st, .push wid => wid :: st
  | st, .pop => st.tail
  | st, _ => st

/-- The Active-Observer stack after running a trace from `st`. -/
def runTrace (st : List WId) (tr : List Ev) : List WId := tr.foldl applyEv st

/-- The `handleError` reports contained in a trace, in order. -/
def reportsOf : List Ev → List String
  | [] => []
  | .report c :: t => c :: reportsOf t
  | _ :: t => reportsOf t

/-- Result of `Watcher.run()`: the updated watcher, whether `get()` was
invoked, the callback invocation (new value, old value) if any, the error
reports routed to `handleError`, and whether an exception propagated to
the caller. -/
structure RunRes where
  w : Watcher
  gotten : Bool
  fired : Option (Value × Value)
  reports : List String
  threw : Bool
deriving Repr, DecidableEq

/-- `Watcher.run()`: no-op when `!active`; otherwise re-evaluate via
`get()` (outcome `gres`), and when the new value differs by identity, or is
an object, or the watcher is deep, update `this.value` and invoke the
callback with `(value, oldValue)`; a user watcher's callback failure
(`cbFails`) is routed to `handleError`, a non-user one propagates. -/
def Watcher.runW (w : Watcher) (gres : Except Unit Value) (cbFails : Bool) : RunRes :=
  if w.active then
    let g := w.getEval gres
    match g.value with
    | none =>
        { w := w, gotten := true, fired := none,
          reports := reportsOf g.trace, threw := true }
    | some value =>
        if value ≠ w.value ∨ isObject value = true ∨ w.deep = true then
          let oldValue := w.value
          let w' := { w with value := value }
          if w.user then
            if cbFails then
              { w := w', gotten := true, fired := some (value, oldValue),
                reports := reportsOf g.trace ++
                  ["callback for watcher \"" ++ w.expression ++ "\""],
                threw := false }
            else
              { w := w', gotten := true, fired := some (value, oldValue),
                reports := reportsOf g.trace, threw := false }
          else
            { w := w', gotten := true, fired := some (value, oldValue),
              reports := reportsOf g.trace, threw := cbFails }
        else
          { w := w, gotten := true, fired := none,
            reports := reportsOf g.trace, threw := false }
  else
    { w := w, gotten := false, fired := none, reports := [], threw := false }

/-- What `Watcher.update()` did: marked a lazy watcher dirty, ran
synchronously, or enqueued on the scheduler via `queueWatcher`. -/
inductive UpdRes where
  | markedDirty
  | ranSync (r : RunRes)
  | queued
deriving Repr, DecidableEq

/-- `Watcher.update()`: `lazy` sets `dirty = true`; `sync` calls `run()`
synchronously; otherwise `queueWatcher(this)`. -/
def Watcher.updateW (w : Watcher) (gres : Except Unit Value) (cbFails : Bool) :
    Watcher × UpdRes :=
  if w.lazy then ({ w with dirty := true }, .markedDirty)
  else if w.sync then
    let r := w.runW gres cbFails
    (r.w, .ranSync r)
  else (w, .queued)

/-- Repeated `update()` calls (each with its getter/callback outcome in case
a synchronous run happens), collecting what each call did. -/
def updateN (w : Watcher) : List (Except Unit Value × Bool) → Watcher × List UpdRes
  | [] => (w, [])
  | g :: gs =>
      let p := w.updateW g.1 g.2
      let q := updateN p.1 gs
      (q.1, p.2 :: q.2)

/-- The expression-or-function argument of the watcher constructor. -/
inductive ExpOrFn where
  | fn (tag : Nat)
  | strPath (s : String)
deriving Repr, DecidableEq

/-- Modelled from the spec: `parsePath` (imported from `../util/index`, not
under `src/`) resolves "simple dot-delimited paths" into an accessor over
the owner and fails on any other expression (the bail test rejects any
character outside word characters, `.` and `$`). -/
def parsePath (path : String) : Option (List String) :=
  if path.toList.all (fun ch => ch.isAlphanum || ch = '.' || ch = '_' || ch = '$')
  then some (path.splitOn ".")
  else none

/-- The `expression` field recorded by the constructor (development build:
`expOrFn.toString()`). -/
def exprString : ExpOrFn → String
  | .fn t => "function:" ++ toString t
  | .strPath s => s

/-- Getter resolution in the watcher constructor: a function is used
directly; different strings go through `parsePath`, and on resolution failure
the getter is substituted with `noop` and a warning is issued (second
component). -/
def resolveGetter : ExpOrFn → GetterSpec × Bool
  | .fn t => (.fnG t, false)
  | .strPath s =>
      match parsePath s with
      | some segs => (.pathG segs, false)
      | none => (.noop, true)

/-- The watcher constructor (development build), modelling id assignment,
option flags, initial bookkeeping state and getter resolution; the initial
evaluation for non-lazy watchers (`this.value = this.lazy ? undefined :
this.get()`) is modelled separately by `getEval`.  Returns the constructed
watcher and whether a path-resolution warning was reported. -/
def mkWatcher (newUid : Nat) (expOrFn : ExpOrFn)
    (deep user lazy sync : Bool) : Watcher × Bool :=
  let r := resolveGetter expOrFn
  ({ id := newUid, active := true, deep := deep, user := user,
     lazy := lazy, sync := sync, dirty := lazy,
     value := Value.undef, expression := exprString expOrFn,
     getter := r.1,
     deps := [], newDeps := [], depIds := [], newDepIds := [] }, r.2)

/-- The whole dependency graph: all deps (Subjects), all watchers
(Observers), and the owner component. -/
structure RSys where
  deps : List Dep
  watchers : List Watcher
  vm : Vm
deriving Repr, DecidableEq

/-- A top-level operation completed outside any in-progress evaluation:
one full `get()` of a watcher (its getter reading the given dep ids), or a
`teardown()`. -/
inductive Op where
  | eval (wid : WId) (reads : List DId)
  | teardown (wid : WId)
deriving Repr, DecidableEq

/-- Apply one operation to the system: find the watcher by id and run the
corresponding `Watcher` method, writing the updated watcher and deps back. -/
def RSys.applyOp (s : RSys) : Op → RSys
  | .eval wid reads =>
      match s.watchers.find? (fun w => w.id == wid) with
      | none => s
      | some w =>
          let p := runCollect w s.deps reads
          { s with deps := p.2,
                   watchers := s.watchers.map fun x => if x.id = wid then p.1 else x }
  | .teardown wid =>
      match s.watchers.find? (fun w => w.id == wid) with
      | none => s
      | some w =>
          let t := w.teardown s.deps s.vm
          { deps := t.2.1, vm := t.2.2,
            watchers := s.watchers.map fun x => if x.id = wid then t.1 else x }

/-- Apply a sequence of completed operations in order. -/
def RSys.applyOps (s : RSys) (ops : List Op) : RSys := ops.foldl RSys.applyOp s

/-- A watcher is at rest (no evaluation in progress): the new-dependency
buffers are empty, the id set mirrors the dep list, and the dep list has no
duplicates. -/
def atRest (w : Watcher) : Prop :=
  w.newDeps = [] ∧ w.newDepIds = [] ∧ w.depIds = w.deps ∧ w.deps.Nodup

instance (w : Watcher) : Decidable (atRest w) := by unfold atRest; infer_instance

/-- Well-formedness of the system at rest: unique dep ids, unique watcher
ids, every watcher at rest, no duplicate subscriptions, every subscription
backed by a recorded dependency, and — for active watchers — every recorded
dependency backed by a subscription. -/
def Inv (s : RSys) : Prop :=
  (s.deps.map Dep.id).Nodup ∧
  (s.watchers.map Watcher.id).Nodup ∧
  (∀ w ∈ s.watchers, atRest w) ∧
  (∀ d ∈ s.deps, d.subs.Nodup) ∧
  (∀ w ∈ s.watchers, ∀ d ∈ s.deps,
      (w.id ∈ d.subs → d.id ∈ w.deps) ∧
      (w.active = true → d.id ∈ w.deps → w.id ∈ d.subs))

instance (s : RSys) : Decidable (Inv s) := by unfold Inv; infer_instance

/-- `n` consecutive completed evaluations of the same watcher, each reading
the same dep ids. -/
def evalNTimes (s : RSys) (wid : WId) (reads : List DId) : Nat → RSys
  | 0 => s
  | n + 1 => (evalNTimes s wid reads n).applyOp (.eval wid reads)

/-- How one dep evolves across `pruneList wid newIds L`: the id is kept,
no-duplicate subs are kept, `wid`'s membership survives exactly when the
dep was not scheduled for pruning, and no other watcher's membership
changes. -/
def PruneRel (wid : WId) (newIds L : List DId) (d d' : Dep) : Prop :=
  d'.id = d.id ∧ d'.subs.Nodup ∧
  (wid ∈ d'.subs ↔ (wid ∈ d.subs ∧ (d.id ∈ L → d.id ∈ newIds))) ∧
  (∀ x, x ≠ wid → (x ∈ d'.subs ↔ x ∈ d.subs))

/-- How one dep evolves across a dependency-collection pass by watcher
`wid` whose new-dependency id set went from `oldNew` to `finalNew` with
previous-round id set `oldDepIds`: the id is kept, no-duplicate subs are
kept, `wid` is subscribed afterwards exactly when it already was or the dep
was newly collected and not already held, and no other watcher's membership
changes. -/
def CollectRel (wid : WId) (finalNew oldNew oldDepIds : List DId)
    (d d' : Dep) : Prop :=
  d'.id = d.id ∧ d'.subs.Nodup ∧
  (wid ∈ d'.subs ↔ (wid ∈ d.subs ∨
    (d.id ∈ finalNew ∧ d.id ∉ oldNew ∧ d.id ∉ oldDepIds))) ∧
  (∀ x, x ≠ wid → (x ∈ d'.subs ↔ x ∈ d.subs))

/-- Concrete one-dep one-watcher system used to exercise the claims: a
fresh dep `1` and a fresh active watcher `1` that has not yet evaluated. -/
def c1state : RSys :=
  { deps := [⟨1, []⟩],
    watchers :=
      [{ id := 1, active := true, deep := false, user := false,
         lazy := false, sync := false, dirty := false, value := Value.undef,
         expression := "e", getter := GetterSpec.noop,
         deps := [], newDeps := [], depIds := [], newDepIds := [] }],
    vm := ⟨[1], false⟩ }

/-- Concrete system for the stale-pruning scenario: deps `10` and `20` and
a fresh active watcher `1`. -/
def c2state : RSys :=
  { deps := [⟨10, []⟩, ⟨20, []⟩],
    watchers :=
      [{ id := 1, active := true, deep := false, user := false,
         lazy := false, sync := false, dirty := false, value := Value.undef,
         expression := "e", getter := GetterSpec.noop,
         deps := [], newDeps := [], depIds := [], newDepIds := [] }],
    vm := ⟨[1], false⟩ }

/-- Concrete watcher mid-evaluation: previous round collected dep `10`,
the current round collected dep `20`. -/
def c2w : Watcher :=
  { id := 1, active := true, deep := false, user := false,
    lazy := false, sync := false, dirty := false, value := Value.undef,
    expression := "e", getter := GetterSpec.noop,
    deps := [10], newDeps := [20], depIds := [10], newDepIds := [20] }

/-- Concrete dep store where watcher `1` is subscribed to both deps. -/
def c2ds : List Dep := [⟨10, [1]⟩, ⟨20, [1]⟩]

/-- Concrete fresh watcher used to exercise repeated `addDep` calls. -/
def c3w : Watcher :=
  { id := 3, active := true, deep := false, user := false,
    lazy := false, sync := false, dirty := false, value := Value.undef,
    expression := "e", getter := GetterSpec.noop,
    deps := [], newDeps := [], depIds := [], newDepIds := [] }

/-- Concrete active watcher holding dep `10`, for the teardown claim. -/
def c8w : Watcher :=
  { id := 1, active := true, deep := false, user := false,
    lazy := false, sync := false, dirty := false, value := Value.undef,
    expression := "e", getter := GetterSpec.noop,
    deps := [10], newDeps := [], depIds := [10], newDepIds := [] }

/-- Concrete dep store where watcher `1` subscribes to dep `10`. -/
def c8ds : List Dep := [⟨10, [1]⟩]

/-- Concrete owner with watchers `1` and `2` registered, not being
destroyed. -/
def c8vm : Vm := ⟨[1, 2], false⟩

/-- The state the repeated-evaluation scenario converges to after the
first evaluation: watcher `2` subscribed to dep `5` exactly once. -/
def c3fixedState : RSys :=
  { deps := [⟨5, [2]⟩],
    watchers :=
      [{ id := 2, active := true, deep := false, user := false,
         lazy := false, sync := false, dirty := false, value := Value.undef,
         expression := "e", getter := GetterSpec.noop,
         deps := [5], newDeps := [], depIds := [5], newDepIds := [] }],
    vm := ⟨[2], false⟩ }

/-- Concrete system for the repeated-evaluation scenario: dep `5` and a
fresh active watcher `2`. -/
def c3state : RSys :=
  { deps := [⟨5, []⟩],
    watchers :=
      [{ id := 2, active := true, deep := false, user := false,
         lazy := false, sync := false, dirty := false, value := Value.undef,
         expression := "e", getter := GetterSpec.noop,
         deps := [], newDeps := [], depIds := [], newDepIds := [] }],
    vm := ⟨[2], false⟩ }

end VueCore

namespace VueVdom

/-- A primitive child value (`isPrimitive`, after booleans have been
skipped): a string or a number. -/
inductive Prim where
  | strP (s : String)
  | numP (n : Int)
deriving Repr, DecidableEq

/-- The text a primitive contributes when coerced into a text vnode
(JS string concatenation / `createTextVNode`). -/
def primText : Prim → String
  | .strP s => s
  | .numP n => toString n

/-- A vnode as far as normalization observes it: a text vnode
(`isDef text`, `isComment` false), a comment vnode (`text` defined but
`isComment` true), or any other vnode with its `tag` and `key`. -/
inductive VNode where
  | textV (s : String)
  | commentV (s : String)
  | elemV (tag : Option String) (key : Option String)
deriving Repr, DecidableEq

/-- `isTextNode(node)`: `isDef(node) && isDef(node.text) &&
isFalse(node.isComment)` — on the optional last/first element. -/
def isTextNode : Option VNode → Bool
  | some (.textV _) => true
  | _ => false

/-- A raw child of a render result: `undefined`/`null`, a boolean, a
primitive, a vnode, or a nested array (carrying its `_isVList` flag). -/
inductive Child where
  | undC
  | boolC (b : Bool)
  | primC (p : Prim)
  | nodeC (v : VNode)
  | arrC (cs : List Child) (isVList : Bool)

/-- The default-key assignment of the vnode branch: a nested vnode with a
`tag`, no `key`, under `_isVList` and a defined `nestedIndex` gets the
default key `__vlist<nestedIndex>_<i>__`; any other vnode is untouched. -/
def defaultKeyed (vlist : Bool) (ni : Option String) (i : Nat) : VNode → VNode
  | .elemV (some tg) none =>
      if vlist && ni.isSome then
        VNode.elemV (some tg)
          (some ("__vlist" ++ ni.getD "" ++ "_" ++ toString i ++ "__"))
      else VNode.elemV (some tg) none
  | v => v

/-- The nested-array branch's push: if the accumulated result ends in a
text vnode and the normalized nested array starts with one, merge them
(`res[lastIndex] = createTextVNode(last.text + c[0].text); c.shift()`),
then append the rest. -/
def pushNested (res cN : List VNode) : List VNode :=
  match res.getLast?, cN.head? with
  | some (.textV t1), some (.textV t2) =>
      res.dropLast ++ (VNode.textV (t1 ++ t2) :: cN.tail)
  | _, _ => res ++ cN

/-- The primitive branch's push: merge into a trailing text vnode, else
convert to a new text vnode unless the primitive is the empty string. -/
def pushPrim (res : List VNode) (p : Prim) : List VNode :=
  match res.getLast? with
  | some (.textV t) => res.dropLast ++ [VNode.textV (t ++ primText p)]
  | _ =>
      if p = Prim.strP "" then res
      else res ++ [VNode.textV (primText p)]

/-- The vnode branch's push: merge two adjacent text vnodes, otherwise push
the vnode after default-key assignment. -/
def pushNode (vlist : Bool) (ni : Option String) (i : Nat)
    (res : List VNode) (v : VNode) : List VNode :=
  match v, res.getLast? with
  | .textV t2, some (.textV t1) => res.dropLast ++ [VNode.textV (t1 ++ t2)]
  | _, _ => res ++ [defaultKeyed vlist ni i v]

/-- The loop of `normalizeArrayChildren`, made explicit: `res` is the
accumulated output, `i` the index in the current array, `vlist` the current
array's `_isVList` flag and `ni` the `nestedIndex` argument.
`undefined`/boolean children are skipped; a non-empty nested array is
normalized recursively with index path `(nestedIndex || '') + '_' + i` and
pushed via `pushNested`; primitives via `pushPrim`; vnodes via
`pushNode`. -/
def normArr : List Child → Bool → Option String → Nat → List VNode → List VNode
  | [], _, _, _, res => res
  | c :: rest, vlist, ni, i, res =>
      match c with
      | .undC => normArr rest vlist ni (i + 1) res
      | .boolC _ => normArr rest vlist ni (i + 1) res
      | .arrC cs cvl =>
          if cs.length > 0 then
            normArr rest vlist ni (i + 1)
              (pushNested res
                (normArr cs cvl (some ((ni.getD "") ++ "_" ++ toString i)) 0 []))
          else normArr rest vlist ni (i + 1) res
      | .primC p => normArr rest vlist ni (i + 1) (pushPrim res p)
      | .nodeC v => normArr rest vlist ni (i + 1) (pushNode vlist ni i res v)
termination_by l _ _ _ _ => sizeOf l
decreasing_by all_goals (simp_wf <;> omega)

/-- `normalizeArrayChildren(children, nestedIndex)`; the `_isVList` flag of
the `children` array is passed alongside it. -/
def normalizeArrayChildren (children : List Child) (vl : Bool)
    (nestedIndex : Option String) : List VNode :=
  normArr children vl nestedIndex 0 []

/-- `normalizeChildren(children)`: a primitive becomes a single text vnode,
an array goes through `normalizeArrayChildren`, anything else yields
`undefined`. -/
def normalizeChildren : Child → Option (List VNode)
  | .primC p => some [VNode.textV (primText p)]
  | .boolC b => some [VNode.textV (if b then "true" else "false")]
  | .arrC cs vl => some (normalizeArrayChildren cs vl none)
  | _ => none

/-- Whether a vnode list contains two adjacent text vnodes. -/
def noAdjText : List VNode → Bool
  | .textV _ :: .textV _ :: _ => false
  | _ :: rest => noAdjText rest
  | [] => true

end VueVdom

namespace VueCore

lemma updateN_lazy (gs : List (Except Unit Value × Bool)) :
    ∀ w : Watcher, w.lazy = true →
      (∀ r ∈ (updateN w gs).2, r = UpdRes.markedDirty) ∧
      (updateN w gs).1 = if gs.isEmpty then w else { w with dirty := true } := by
  induction gs with
  | nil => intro w _; exact ⟨by intro r hr; simp [updateN] at hr, rfl⟩
  | cons g gs ih =>
      intro w hl
      have hstep : w.updateW g.1 g.2 = ({ w with dirty := true }, UpdRes.markedDirty) := by
        simp [Watcher.updateW, hl]
      have ih' := ih { w with dirty := true } (by simpa using hl)
      constructor
      · intro r hr
        simp only [updateN, hstep, List.mem_cons] at hr
        rcases hr with h | h
        · exact h
        · exact ih'.1 r h
      · simp only [updateN, hstep, ih'.2]
        by_cases he : gs.isEmpty <;> simp [he]

/-- C4: `run()` is a no-op when inactive; when active it re-evaluates via
`get()` and fires the callback with `(newValue, oldValue)` exactly when the
new value differs from the cached one, or is an object/array, or the
watcher is deep; on firing the cached value is set to the new value. -/
theorem c4_run_fire_condition (w : Watcher) (v : Value) (c : Bool) :
    (w.active = false →
      w.runW (Except.ok v) c = ⟨w, false, none, [], false⟩) ∧
    (w.active = true →
      (w.runW (Except.ok v) c).gotten = true ∧
      (((v ≠ w.value) ∨ isObject v = true ∨ w.deep = true) ↔
        (w.runW (Except.ok v) c).fired = some (v, w.value)) ∧
      ((w.runW (Except.ok v) c).fired = some (v, w.value) →
        (w.runW (Except.ok v) c).w.value = v)) := by
  constructor
  · intro h; simp [Watcher.runW, h]
  · intro h
    by_cases hc : (v ≠ w.value) ∨ isObject v = true ∨ w.deep = true
    · by_cases hu : w.user <;> by_cases hcb : c <;>
        simp [Watcher.runW, Watcher.getEval, h, hc, hu, hcb]
    · simp [Watcher.runW, Watcher.getEval, h, hc]

/-- Witness for `c4_run_fire_condition`: an active deep watcher fires even
on an identical value, and the cache is updated. -/
theorem c4_run_fire_condition_witness :
    let w : Watcher :=
      { id := 1, active := true, deep := true, user := false,
        lazy := false, sync := false, dirty := false, value := Value.numV 3,
        expression := "e", getter := GetterSpec.noop,
        deps := [], newDeps := [], depIds := [], newDepIds := [] }
    (w.runW (Except.ok (Value.numV 3)) false).fired =
        some (Value.numV 3, Value.numV 3) ∧
      (w.runW (Except.ok (Value.numV 3)) false).w.value = Value.numV 3 := by
  intro w
  have h := c4_run_fire_condition w (Value.numV 3) false
  have h2 := (h.2 rfl).2.1.mp (by simp [w])
  exact ⟨h2, (h.2 rfl).2.2 h2⟩

/-- C5: `update()` dispatches by the policy fixed at construction: a lazy
watcher only gets `dirty = true` (and any number of updates never runs the
getter nor fires the callback), a sync watcher runs synchronously, and the
default case is enqueued on the scheduler. -/
theorem c5_update_dispatch (w : Watcher) (g : Except Unit Value) (c : Bool) :
    (w.lazy = true →
      w.updateW g c = ({ w with dirty := true }, UpdRes.markedDirty)) ∧
    (w.lazy = false → w.sync = true →
      w.updateW g c = ((w.runW g c).w, UpdRes.ranSync (w.runW g c))) ∧
    (w.lazy = false → w.sync = false → w.updateW g c = (w, UpdRes.queued)) ∧
    (w.lazy = true → ∀ gs, (∀ r ∈ (updateN w gs).2, r = UpdRes.markedDirty) ∧
      (updateN w gs).1 = if gs.isEmpty then w else { w with dirty := true }) := by
  refine ⟨?_, ?_, ?_, ?_⟩
  · intro h; simp [Watcher.updateW, h]
  · intro h hs; simp [Watcher.updateW, h, hs]
  · intro h hs; simp [Watcher.updateW, h, hs]
  · intro h gs; exact updateN_lazy gs w h

/-- Witness for `c5_update_dispatch`: five updates of a lazy watcher only
mark it dirty. -/
theorem c5_update_dispatch_witness :
    let w : Watcher :=
      { id := 1, active := true, deep := false, user := false,
        lazy := true, sync := false, dirty := false, value := Value.undef,
        expression := "e", getter := GetterSpec.noop,
        deps := [], newDeps := [], depIds := [], newDepIds := [] }
    let gs : List (Except Unit Value × Bool) :=
      List.replicate 5 (Except.ok Value.undef, false)
    (∀ r ∈ (updateN w gs).2, r = UpdRes.markedDirty) ∧
      (updateN w gs).1 = { w with dirty := true } := by
  intro w gs
  have h := (c5_update_dispatch w (Except.ok Value.undef) false).2.2.2 rfl gs
  exact ⟨h.1, by simpa using h.2⟩

/-- C6: error routing by the `user` trait: a user watcher's getter failure
is reported with context `getter for watcher "<expression>"` and evaluation
continues with the degraded `undefined` value; a user watcher's callback
failure is reported with context `callback for watcher "<expression>"`; for
a non-user watcher both failures propagate to the caller. -/
theorem c6_error_routing (w : Watcher) (v : Value) (c : Bool) :
    (w.user = true →
      (w.getEval (Except.error ())).value = some Value.undef ∧
      reportsOf (w.getEval (Except.error ())).trace =
        ["getter for watcher \"" ++ w.expression ++ "\""]) ∧
    (w.user = false →
      (w.getEval (Except.error ())).value = none ∧
      reportsOf (w.getEval (Except.error ())).trace = []) ∧
    (w.user = false → w.active = true →
      (w.runW (Except.error ()) c).threw = true ∧
      (w.runW (Except.error ()) c).fired = none) ∧
    (w.user = true → w.active = true →
      (w.runW (Except.ok v) true).fired ≠ none →
      (w.runW (Except.ok v) true).threw = false ∧
      (w.runW (Except.ok v) true).reports =
        ["callback for watcher \"" ++ w.expression ++ "\""]) ∧
    (w.user = false → w.active = true →
      (w.runW (Except.ok v) true).fired ≠ none →
      (w.runW (Except.ok v) true).threw = true) := by
  refine ⟨?_, ?_, ?_, ?_, ?_⟩
  · intro h
    by_cases hd : w.deep <;> simp [Watcher.getEval, reportsOf, h, hd]
  · intro h
    by_cases hd : w.deep <;> simp [Watcher.getEval, reportsOf, h, hd]
  · intro h ha
    by_cases hd : w.deep <;> simp [Watcher.runW, Watcher.getEval, h, ha, hd]
  · intro h ha hf
    by_cases hc : (v ≠ w.value) ∨ isObject v = true ∨ w.deep = true
    · by_cases hd : w.deep = true
      · simp [Watcher.runW, Watcher.getEval, reportsOf, h, ha, hc, hd]
      · have hc2 : ¬v = w.value ∨ isObject v = true := by
          rcases hc with h1 | h1 | h1
          · exact Or.inl h1
          · exact Or.inr h1
          · exact absurd h1 hd
        simp [Watcher.runW, Watcher.getEval, reportsOf, h, ha, hc2, hd]
    · exfalso; apply hf; simp [Watcher.runW, Watcher.getEval, ha, hc]
  · intro h ha hf
    by_cases hc : (v ≠ w.value) ∨ isObject v = true ∨ w.deep = true
    · by_cases hd : w.deep = true
      · simp [Watcher.runW, Watcher.getEval, h, ha, hc, hd]
      · have hc2 : ¬v = w.value ∨ isObject v = true := by
          rcases hc with h1 | h1 | h1
          · exact Or.inl h1
          · exact Or.inr h1
          · exact absurd h1 hd
        simp [Watcher.runW, Watcher.getEval, h, ha, hc2, hd]
    · exfalso; apply hf; simp [Watcher.runW, Watcher.getEval, ha, hc]

/-- Witness for `c6_error_routing`: a user watcher's getter failure is
reported and degraded to `undefined`; a non-user watcher's getter failure
propagates out of `run()`. -/
theorem c6_error_routing_witness :
    let wu : Watcher :=
      { id := 1, active := true, deep := false, user := true,
        lazy := false, sync := false, dirty := false, value := Value.undef,
        expression := "a.b", getter := GetterSpec.noop,
        deps := [], newDeps := [], depIds := [], newDepIds := [] }
    let wi : Watcher := { wu with user := false, id := 2 }
    ((wu.getEval (Except.error ())).value = some Value.undef ∧
      reportsOf (wu.getEval (Except.error ())).trace =
        ["getter for watcher \"a.b\""]) ∧
    ((wi.runW (Except.error ()) false).threw = true ∧
      (wi.runW (Except.error ()) false).fired = none) := by
  intro wu wi
  exact ⟨(c6_error_routing wu Value.undef false).1 rfl,
    (c6_error_routing wi Value.undef false).2.2.1 rfl rfl⟩

/-- C7: on every exit path of `get()` — normal return, user-routed getter
error, or propagated getter error — the trace is a `pushTarget` of this
watcher, possibly a `handleError` report, the deep traversal exactly when
`deep` is set, then `popTarget` and `cleanupDeps`; running the trace on any
Active-Observer stack restores that stack, so the outer watcher becomes
current again. -/
theorem c7_get_scoped_context (w : Watcher) (g : Except Unit Value)
    (st : List WId) :
    ∃ mid, (∀ e ∈ mid, ∃ ctx, e = Ev.report ctx) ∧
      (w.getEval g).trace =
        Ev.push w.id ::
          (mid ++ ((if w.deep = true then [Ev.traverseEv] else []) ++
            [Ev.pop, Ev.cleanup])) ∧
      runTrace st (w.getEval g).trace = st := by
  match g with
  | .ok v =>
      refine ⟨[], by simp, by simp [Watcher.getEval], ?_⟩
      by_cases hd : w.deep <;> simp [Watcher.getEval, runTrace, applyEv, hd]
  | .error e =>
      by_cases hu : w.user
      · refine ⟨[Ev.report ("getter for watcher \"" ++ w.expression ++ "\"")],
          by simp, by simp [Watcher.getEval, hu], ?_⟩
        by_cases hd : w.deep <;> simp [Watcher.getEval, runTrace, applyEv, hu, hd]
      · refine ⟨[], by simp, by simp [Watcher.getEval, hu], ?_⟩
        by_cases hd : w.deep <;> simp [Watcher.getEval, runTrace, applyEv, hu, hd]

/-- C9: a string expression that `parsePath` cannot resolve still yields a
constructed, active watcher whose getter is the substituted no-op, with a
warning reported. -/
theorem c9_path_resolution_failure (u : Nat) (s : String) (d usr l sy : Bool)
    (h : parsePath s = none) :
    (mkWatcher u (ExpOrFn.strPath s) d usr l sy).1.getter = GetterSpec.noop ∧
    (mkWatcher u (ExpOrFn.strPath s) d usr l sy).2 = true ∧
    (mkWatcher u (ExpOrFn.strPath s) d usr l sy).1.active = true := by
  simp [mkWatcher, resolveGetter, h]

/-- Witness for `c9_path_resolution_failure`: the path `"a-b"` fails the
bail test, and construction still succeeds with a no-op getter plus a
warning. -/
theorem c9_path_resolution_failure_witness :
    parsePath "a-b" = none ∧
    (mkWatcher 1 (ExpOrFn.strPath "a-b") false false false false).1.getter =
        GetterSpec.noop ∧
    (mkWatcher 1 (ExpOrFn.strPath "a-b") false false false false).2 = true ∧
    (mkWatcher 1 (ExpOrFn.strPath "a-b") false false false false).1.active =
        true := by
  have h : parsePath "a-b" = none := by decide
  have := c9_path_resolution_failure 1 "a-b" false false false false h
  exact ⟨h, this.1, this.2.1, this.2.2⟩

end VueCore
namespace VueVdom

lemma noAdjText_single (v : VNode) : noAdjText [v] = true := by cases v <;> rfl

lemma noAdjText_cons_cons (a b : VNode) (l : List VNode) :
    noAdjText (a :: b :: l) =
      (!(isTextNode (some a) && isTextNode (some b)) && noAdjText (b :: l)) := by
  cases a <;> cases b <;> simp [noAdjText, isTextNode]

lemma isTextNode_iff (o : Option VNode) :
    isTextNode o = true ↔ ∃ s, o = some (VNode.textV s) := by
  cases o with
  | none => simp [isTextNode]
  | some v => cases v <;> simp [isTextNode]

lemma noAdjText_append (xs ys : List VNode) (hx : noAdjText xs = true)
    (hy : noAdjText ys = true)
    (hb : isTextNode xs.getLast? = false ∨ isTextNode ys.head? = false) :
    noAdjText (xs ++ ys) = true := by
  induction xs with
  | nil => simpa using hy
  | cons a xs ih =>
      cases xs with
      | nil =>
          cases ys with
          | nil => simpa using hx
          | cons b ys' =>
              have : ([a] ++ (b :: ys')) = a :: b :: ys' := rfl
              rw [this, noAdjText_cons_cons]
              simp only [List.getLast?_singleton, List.head?_cons] at hb
              rcases hb with hb | hb <;> simp [hb, hy]
      | cons a' xs' =>
          have hsplit : ((a :: a' :: xs') ++ ys) = a :: ((a' :: xs') ++ ys) := rfl
          rw [hsplit]
          have hcons : ((a' :: xs') ++ ys) = a' :: (xs' ++ ys) := rfl
          rw [hcons, noAdjText_cons_cons]
          rw [noAdjText_cons_cons] at hx
          simp only [Bool.and_eq_true] at hx
          have hx1 := hx.1
          have hx2 := hx.2
          have hb' : isTextNode (a' :: xs').getLast? = false ∨ isTextNode ys.head? = false := by
            rcases hb with hb | hb
            · left; simpa using hb
            · right; exact hb
          have := ih hx2 hb'
          rw [hcons] at this
          simp [hx1, this]

lemma noAdjText_dropLast (res : List VNode) (t : String) :
    res.getLast? = some (VNode.textV t) → noAdjText res = true →
    noAdjText res.dropLast = true ∧ isTextNode res.dropLast.getLast? = false := by
  induction res with
  | nil => intro hl; simp at hl
  | cons a l ih =>
      intro hl h
      cases l with
      | nil =>
          exact ⟨rfl, rfl⟩
      | cons b l' =>
          have hl' : (b :: l').getLast? = some (VNode.textV t) := by
            simpa [List.getLast?_cons_cons] using hl
          rw [noAdjText_cons_cons] at h
          simp only [Bool.and_eq_true] at h
          have h1 := h.1
          have h2 := h.2
          have ih' := ih hl' h2
          have hdc : (a :: b :: l').dropLast = a :: (b :: l').dropLast := by
            simp [List.dropLast]
          rw [hdc]
          constructor
          · cases l' with
            | nil =>
                simp at hl'
                subst hl'
                simp [List.dropLast, noAdjText_single]
            | cons c l'' =>
                have : (b :: c :: l'').dropLast = b :: (c :: l'').dropLast := by
                  simp [List.dropLast]
                rw [this]
                rw [this] at ih'
                rw [noAdjText_cons_cons]
                simp only [Bool.and_eq_true]
                refine ⟨?_, ih'.1⟩
                -- pair (a, b) not both text
                simp only [Bool.not_and] at h1 ⊢
                exact h1
          · cases l' with
            | nil =>
                simp at hl'
                subst hl'
                -- dropLast [b] = [] so (a :: []).getLast? = some a; from h1, b text -> a not text
                simp only [List.dropLast, List.getLast?_singleton]
                revert h1
                cases a <;> simp [isTextNode]
            | cons c l'' =>
                have : (b :: c :: l'').dropLast = b :: (c :: l'').dropLast := by
                  simp [List.dropLast]
                rw [this]
                rw [this] at ih'
                simpa [List.getLast?_cons_cons] using ih'.2

lemma noAdjText_retext (a b : String) (l : List VNode)
    (h : noAdjText (VNode.textV a :: l) = true) :
    noAdjText (VNode.textV b :: l) = true := by
  cases l with
  | nil => rfl
  | cons c rest =>
      cases c <;> simp [noAdjText] at h ⊢ <;> exact h

end VueVdom

namespace VueVdom

lemma isTextNode_false_getLast (res : List VNode)
    (h : isTextNode res.getLast? = false) (s : String) :
    res.getLast? = some (VNode.textV s) → False := by
  intro he; rw [he] at h; simp [isTextNode] at h

lemma pushPrim_noAdj (res : List VNode) (p : Prim)
    (h : noAdjText res = true) : noAdjText (pushPrim res p) = true := by
  cases hres : res.getLast? with
  | some v =>
      cases v with
      | textV t =>
          have hdl := noAdjText_dropLast res t hres h
          simp only [pushPrim, hres]
          exact noAdjText_append _ _ hdl.1 (noAdjText_single _) (Or.inl hdl.2)
      | commentV s =>
          simp only [pushPrim, hres]
          by_cases hp : p = Prim.strP ""
          · simpa [hp] using h
          · simp only [hp, if_neg, ite_false]
            apply noAdjText_append _ _ h (noAdjText_single _)
            exact Or.inl (by simp [hres, isTextNode])
      | elemV tg k =>
          simp only [pushPrim, hres]
          by_cases hp : p = Prim.strP ""
          · simpa [hp] using h
          · simp only [hp, ite_false]
            apply noAdjText_append _ _ h (noAdjText_single _)
            exact Or.inl (by simp [hres, isTextNode])
  | none =>
      simp only [pushPrim, hres]
      by_cases hp : p = Prim.strP ""
      · simpa [hp] using h
      · simp only [hp, ite_false]
        apply noAdjText_append _ _ h (noAdjText_single _)
        exact Or.inl (by simp [hres, isTextNode])

lemma defaultKeyed_not_text (vlist : Bool) (ni : Option String) (i : Nat)
    (v : VNode) (hv : ∀ t, v ≠ VNode.textV t) :
    isTextNode (some (defaultKeyed vlist ni i v)) = false := by
  cases v with
  | textV t => exact absurd rfl (hv t)
  | commentV s => simp [defaultKeyed, isTextNode]
  | elemV tg k =>
      rcases tg with _ | tg <;> rcases k with _ | k <;>
        simp only [defaultKeyed] <;>
        first
          | (split <;> simp [isTextNode])
          | simp [isTextNode]

lemma pushNode_noAdj (vlist : Bool) (ni : Option String) (i : Nat)
    (res : List VNode) (v : VNode)
    (h : noAdjText res = true) : noAdjText (pushNode vlist ni i res v) = true := by
  cases hres : res.getLast? with
  | some lv =>
      cases lv with
      | textV t1 =>
          cases v with
          | textV t2 =>
              have hdl := noAdjText_dropLast res t1 hres h
              simp only [pushNode, hres]
              exact noAdjText_append _ _ hdl.1 (noAdjText_single _) (Or.inl hdl.2)
          | commentV s =>
              simp only [pushNode, hres]
              apply noAdjText_append _ _ h (noAdjText_single _)
              exact Or.inr (by simp [isTextNode, defaultKeyed])
          | elemV tg k =>
              simp only [pushNode, hres]
              apply noAdjText_append _ _ h (noAdjText_single _)
              exact Or.inr (by
                simpa using defaultKeyed_not_text vlist ni i (VNode.elemV tg k)
                  (by intro t ht; cases ht))
      | commentV s =>
          cases v <;> simp only [pushNode, hres] <;>
            apply noAdjText_append _ _ h (noAdjText_single _) <;>
            exact Or.inl (by simp [hres, isTextNode])
      | elemV tg k =>
          cases v <;> simp only [pushNode, hres] <;>
            apply noAdjText_append _ _ h (noAdjText_single _) <;>
            exact Or.inl (by simp [hres, isTextNode])
  | none =>
      cases v <;> simp only [pushNode, hres] <;>
        apply noAdjText_append _ _ h (noAdjText_single _) <;>
        exact Or.inl (by simp [hres, isTextNode])

lemma pushNested_noAdj (res cN : List VNode)
    (h : noAdjText res = true) (hc : noAdjText cN = true) :
    noAdjText (pushNested res cN) = true := by
  cases hres : res.getLast? with
  | some lv =>
      cases lv with
      | textV t1 =>
          cases hcn : cN.head? with
          | some cv =>
              cases cv with
              | textV t2 =>
                  have hdl := noAdjText_dropLast res t1 hres h
                  obtain ⟨tl, htl⟩ : ∃ tl, cN = VNode.textV t2 :: tl := by
                    cases cN with
                    | nil => simp at hcn
                    | cons c ctl =>
                        simp only [List.head?_cons, Option.some.injEq] at hcn
                        exact ⟨ctl, by rw [hcn]⟩
                  simp only [pushNested, hres, hcn, htl, List.tail_cons]
                  apply noAdjText_append _ _ hdl.1
                  · exact noAdjText_retext t2 _ _ (htl ▸ hc)
                  · exact Or.inl hdl.2
              | commentV s =>
                  simp only [pushNested, hres, hcn]
                  exact noAdjText_append _ _ h hc (Or.inr (by simp [hcn, isTextNode]))
              | elemV tg k =>
                  simp only [pushNested, hres, hcn]
                  exact noAdjText_append _ _ h hc (Or.inr (by simp [hcn, isTextNode]))
          | none =>
              simp only [pushNested, hres, hcn]
              exact noAdjText_append _ _ h hc (Or.inr (by simp [hcn, isTextNode]))
      | commentV s =>
          simp only [pushNested, hres]
          exact noAdjText_append _ _ h hc (Or.inl (by simp [hres, isTextNode]))
      | elemV tg k =>
          simp only [pushNested, hres]
          exact noAdjText_append _ _ h hc (Or.inl (by simp [hres, isTextNode]))
  | none =>
      simp only [pushNested, hres]
      exact noAdjText_append _ _ h hc (Or.inl (by simp [hres, isTextNode]))

lemma normArr_noAdj (l : List Child) (vl : Bool) (ni : Option String) (i : Nat)
    (res : List VNode) :
    noAdjText res = true → noAdjText (normArr l vl ni i res) = true := by
  induction l, vl, ni, i, res using normArr.induct with
  | case1 vl ni i res => intro h; simpa [normArr] using h
  | case2 rest vl ni i res ih => intro h; simpa [normArr] using ih h
  | case3 rest vl ni i res b ih => intro h; simpa [normArr] using ih h
  | case4 rest vl ni i res cs cvl hlen ih1 ih2 =>
      intro h
      have hstep : normArr (Child.arrC cs cvl :: rest) vl ni i res =
          normArr rest vl ni (i + 1)
            (pushNested res
              (normArr cs cvl (some ((ni.getD "") ++ "_" ++ toString i)) 0 [])) := by
        simp [normArr, hlen]
      rw [hstep]
      exact ih2 (pushNested_noAdj _ _ h (ih1 rfl))
  | case5 rest vl ni i res cs cvl hlen ih =>
      intro h
      have hstep : normArr (Child.arrC cs cvl :: rest) vl ni i res =
          normArr rest vl ni (i + 1) res := by
        simp [normArr, hlen]
      rw [hstep]
      exact ih h
  | case6 rest vl ni i res p ih =>
      intro h
      have hstep : normArr (Child.primC p :: rest) vl ni i res =
          normArr rest vl ni (i + 1) (pushPrim res p) := by
        simp [normArr]
      rw [hstep]
      exact ih (pushPrim_noAdj _ _ h)
  | case7 rest vl ni i res v ih =>
      intro h
      have hstep : normArr (Child.nodeC v :: rest) vl ni i res =
          normArr rest vl ni (i + 1) (pushNode vl ni i res v) := by
        simp [normArr]
      rw [hstep]
      exact ih (pushNode_noAdj _ _ _ _ _ h)

end VueVdom

namespace VueVdom

/-- C10: for every input array, `normalizeArrayChildren` never returns two
adjacent text vnodes (adjacent text children, including across a nested
array boundary, are merged into one text vnode whose text is the
concatenation); skipped `undefined`/boolean children produce no entries,
and an empty-string primitive after a non-text entry produces no new
entry. -/
theorem c10_normalize_no_adjacent_text :
    (∀ (cs : List Child) (vl : Bool) (ni : Option String),
      noAdjText (normalizeArrayChildren cs vl ni) = true) ∧
    normalizeArrayChildren
      [Child.primC (Prim.strP "a"), Child.arrC [Child.primC (Prim.strP "b")] false,
        Child.primC (Prim.strP "")] false none = [VNode.textV "ab"] ∧
    normalizeArrayChildren [Child.undC, Child.boolC true] false none = [] ∧
    normalizeArrayChildren
      [Child.nodeC (VNode.elemV (some "div") none), Child.primC (Prim.strP "")]
      false none = [VNode.elemV (some "div") none] ∧
    normalizeArrayChildren
      [Child.nodeC (VNode.textV "x"), Child.nodeC (VNode.textV "y")] false none =
      [VNode.textV "xy"] := by
  refine ⟨fun cs vl ni => normArr_noAdj cs vl ni 0 [] rfl, ?_, ?_, ?_, ?_⟩
  · simp [normalizeArrayChildren, normArr, pushNested, pushPrim, pushNode,
      defaultKeyed, primText]
  · simp [normalizeArrayChildren, normArr]
  · simp [normalizeArrayChildren, normArr, pushNode, pushPrim, defaultKeyed]
  · simp [normalizeArrayChildren, normArr, pushNode, defaultKeyed]

end VueVdom
namespace VueCore

lemma map_eq_self_of {α : Type} (l : List α) (f : α → α)
    (h : ∀ a ∈ l, f a = a) : l.map f = l := by
  induction l with
  | nil => rfl
  | cons a tl ih =>
      simp only [List.map_cons, h a (by simp)]
      rw [ih (fun x hx => h x (by simp [hx]))]

lemma forall₂_comp {α β γ : Type} {R1 : α → β → Prop} {R2 : β → γ → Prop}
    {R : α → γ → Prop} (hc : ∀ a b c, R1 a b → R2 b c → R a c) :
    ∀ {l1 : List α} {l2 : List β} {l3 : List γ},
      List.Forall₂ R1 l1 l2 → List.Forall₂ R2 l2 l3 → List.Forall₂ R l1 l3 := by
  intro l1 l2 l3 h1 h2
  induction h1 generalizing l3 with
  | nil => cases h2; exact List.Forall₂.nil
  | cons hab htl ih =>
      cases h2 with
      | cons hbc htl2 => exact List.Forall₂.cons (hc _ _ _ hab hbc) (ih htl2)

lemma forall₂_mem_right {α β : Type} {R : α → β → Prop} {l1 : List α}
    {l2 : List β} (h : List.Forall₂ R l1 l2) {b : β} (hb : b ∈ l2) :
    ∃ a ∈ l1, R a b := by
  induction h with
  | nil => simp at hb
  | cons hab htl ih =>
      rcases List.mem_cons.mp hb with rfl | hb'
      · exact ⟨_, by simp, hab⟩
      · obtain ⟨a, ha, har⟩ := ih hb'
        exact ⟨a, by simp [ha], har⟩

lemma forall₂_map_eq {α β : Type} (f : α → Nat) (g : β → Nat)
    {l1 : List α} {l2 : List β}
    (h : List.Forall₂ (fun a b => g b = f a) l1 l2) :
    l2.map g = l1.map f := by
  induction h with
  | nil => rfl
  | cons hab _ ih => simp [ih, hab]

lemma nodup_map_inj {α β : Type} (f : α → β) (l : List α)
    (h : (l.map f).Nodup) :
    ∀ a ∈ l, ∀ b ∈ l, f a = f b → a = b := by
  induction l with
  | nil => simp
  | cons x tl ih =>
      simp only [List.map_cons, List.nodup_cons] at h
      intro a ha b hb hf
      rcases List.mem_cons.mp ha with rfl | ha' <;>
        rcases List.mem_cons.mp hb with rfl | hb'
      · rfl
      · exact absurd (hf ▸ List.mem_map_of_mem f hb') h.1
      · exact absurd (hf ▸ List.mem_map_of_mem f ha') (by
          intro hm; exact h.1 (hf ▸ hm))
      · exact ih h.2 a ha' b hb' hf

lemma pruneList_spec (wid : WId) (newIds : List DId) :
    ∀ (L : List DId) (ds : List Dep), (∀ d ∈ ds, d.subs.Nodup) →
      List.Forall₂ (PruneRel wid newIds L) ds (pruneList wid newIds L ds) := by
  intro L
  induction L with
  | nil =>
      intro ds hnd
      have hstep : pruneList wid newIds [] ds = ds := rfl
      rw [hstep]
      refine List.forall₂_same.mpr (fun d hd => ⟨rfl, hnd d hd, by simp, ?_⟩)
      intro x _; exact Iff.rfl
  | cons did rest ih =>
      intro ds hnd
      by_cases hmem : did ∈ newIds
      · have hstep : pruneList wid newIds (did :: rest) ds =
            pruneList wid newIds rest ds := by
          simp [pruneList, hmem]
        rw [hstep]
        refine (ih ds hnd).imp ?_
        rintro d d' ⟨hid, hnd', hw, hx⟩
        refine ⟨hid, hnd', ?_, hx⟩
        rw [hw]
        constructor
        · rintro ⟨h1, h2⟩
          refine ⟨h1, fun hm => ?_⟩
          rcases List.mem_cons.mp hm with rfl | hm'
          · exact hmem
          · exact h2 hm'
        · rintro ⟨h1, h2⟩
          exact ⟨h1, fun hm => h2 (List.mem_cons_of_mem _ hm)⟩
      · have hstep : pruneList wid newIds (did :: rest) ds =
            pruneList wid newIds rest
              (ds.map fun d => if d.id = did then d.removeSub wid else d) := by
          simp [pruneList, hmem]
        rw [hstep]
        set g : Dep → Dep := fun d => if d.id = did then d.removeSub wid else d
          with hg
        have hnd1 : ∀ d ∈ ds.map g, d.subs.Nodup := by
          intro d hd
          obtain ⟨d0, hd0, rfl⟩ := List.mem_map.mp hd
          by_cases h0 : d0.id = did
          · simp only [hg, if_pos h0, Dep.removeSub]
            exact (hnd d0 hd0).erase _
          · simp only [hg, if_neg h0]
            exact hnd d0 hd0
        have hmap : List.Forall₂ (fun d d1 => d1 = g d ∧ d.subs.Nodup) ds
            (ds.map g) := by
          rw [List.forall₂_map_right_iff]
          exact List.forall₂_same.mpr (fun d hd => ⟨rfl, hnd d hd⟩)
        refine forall₂_comp ?_ hmap (ih (ds.map g) hnd1)
        rintro d d1 d' ⟨rfl, hdnd⟩ ⟨hid, hnd', hw, hx⟩
        by_cases h0 : d.id = did
        · have hsub : (g d).subs = d.subs.erase wid := by
            simp [hg, if_pos h0, Dep.removeSub]
          have hidg : (g d).id = d.id := by
            simp [hg, if_pos h0, Dep.removeSub]
          refine ⟨hid.trans hidg, hnd', ?_, ?_⟩
          · rw [hw, hsub]
            have hno : wid ∉ d.subs.erase wid := by
              intro hm
              exact absurd (hdnd.mem_erase_iff.mp hm).1 (by simp)
            constructor
            · rintro ⟨h1, _⟩; exact absurd h1 hno
            · rintro ⟨_, h2⟩
              exact absurd (h0 ▸ h2 (by simp [h0])) hmem
          · intro x hxne
            rw [hx x hxne, hsub, List.mem_erase_of_ne hxne]
        · have hgd : g d = d := by simp [hg, if_neg h0]
          rw [hgd] at hid hw hx
          refine ⟨hid, hnd', ?_, hx⟩
          rw [hw]
          constructor
          · rintro ⟨h1, h2⟩
            refine ⟨h1, fun hm => ?_⟩
            rcases List.mem_cons.mp hm with heq | hm'
            · exact absurd heq h0
            · exact h2 hm'
          · rintro ⟨h1, h2⟩
            exact ⟨h1, fun hm => h2 (List.mem_cons_of_mem _ hm)⟩

end VueCore
namespace VueCore

lemma map_eq_of {α β : Type} (l : List α) (f g : α → β)
    (h : ∀ a ∈ l, f a = g a) : l.map f = l.map g := by
  induction l with
  | nil => rfl
  | cons a tl ih =>
      simp only [List.map_cons, h a (by simp)]
      rw [ih (fun x hx => h x (by simp [hx]))]

lemma find?_eq_of_mem_nodup (ds : List Dep) (hids : (ds.map Dep.id).Nodup)
    (d : Dep) (hd : d ∈ ds) : ds.find? (fun e => e.id == d.id) = some d := by
  induction ds with
  | nil => simp at hd
  | cons e tl ih =>
      simp only [List.map_cons, List.nodup_cons] at hids
      rcases List.mem_cons.mp hd with rfl | hd'
      · simp [List.find?]
      · have hne : (e.id == d.id) = false := by
          simp only [beq_eq_false_iff_ne, ne_eq]
          intro heq
          exact hids.1 (heq ▸ List.mem_map_of_mem Dep.id hd')
        simp only [List.find?, hne]
        exact ih hids.2 hd'

lemma nodup_append_singleton {l : List DId} {a : DId}
    (hl : l.Nodup) (ha : a ∉ l) : (l ++ [a]).Nodup := by
  simp [List.nodup_append, hl, ha]

lemma collectDeps_spec : ∀ (rs : List DId) (w : Watcher) (ds : List Dep),
    (ds.map Dep.id).Nodup →
    (∀ d ∈ ds, d.subs.Nodup) →
    w.newDeps = w.newDepIds →
    w.newDepIds.Nodup →
    (∀ d ∈ ds, w.id ∈ d.subs → (d.id ∈ w.depIds ∨ d.id ∈ w.newDepIds)) →
    ((collectDeps w ds rs).1.id = w.id ∧
     (collectDeps w ds rs).1.active = w.active ∧
     (collectDeps w ds rs).1.deps = w.deps ∧
     (collectDeps w ds rs).1.depIds = w.depIds) ∧
    ((collectDeps w ds rs).1.newDeps = (collectDeps w ds rs).1.newDepIds ∧
     (collectDeps w ds rs).1.newDepIds.Nodup ∧
     (∀ i ∈ w.newDepIds, i ∈ (collectDeps w ds rs).1.newDepIds)) ∧
    ((collectDeps w ds rs).2.map Dep.id = ds.map Dep.id) ∧
    List.Forall₂
      (CollectRel w.id (collectDeps w ds rs).1.newDepIds w.newDepIds w.depIds)
      ds (collectDeps w ds rs).2 := by
  intro rs
  induction rs with
  | nil =>
      intro w ds hids hnd hnn hnodup h4
      refine ⟨⟨rfl, rfl, rfl, rfl⟩, ⟨hnn, hnodup, fun i hi => hi⟩, rfl, ?_⟩
      refine List.forall₂_same.mpr
        (fun d hd => ⟨rfl, hnd d hd, ?_, fun x _ => Iff.rfl⟩)
      constructor
      · exact Or.inl
      · rintro (h | ⟨hf, hn, _⟩)
        · exact h
        · exact absurd hf hn
  | cons r rs ih =>
      intro w ds hids hnd hnn hnodup h4
      cases hfind : ds.find? (fun e => e.id == r) with
      | none =>
          have hadd : addDepIn w ds r = (w, ds) := by
            simp [addDepIn, hfind]
          have hcol : collectDeps w ds (r :: rs) = collectDeps w ds rs := by
            simp [collectDeps, hadd]
          rw [hcol]
          exact ih w ds hids hnd hnn hnodup h4
      | some d₀ =>
          have hid₀ : d₀.id = r := by
            have := List.find?_some hfind
            simpa using this
          have hd₀ : d₀ ∈ ds := List.mem_of_find?_eq_some hfind
          by_cases hrN : r ∈ w.newDepIds
          · have haddDep : w.addDep d₀ = (w, d₀) := by
              simp [Watcher.addDep, hid₀, hrN]
            have hself : (ds.map fun e => if e.id = r then d₀ else e) = ds := by
              apply map_eq_self_of
              intro e he
              by_cases h : e.id = r
              · have : e = d₀ :=
                  nodup_map_inj Dep.id ds hids e he d₀ hd₀ (h.trans hid₀.symm)
                simp [h, this]
              · simp [h]
            have hadd : addDepIn w ds r = (w, ds) := by
              simp only [addDepIn, hfind, haddDep]
              simp [hself]
            have hcol : collectDeps w ds (r :: rs) = collectDeps w ds rs := by
              simp [collectDeps, hadd]
            rw [hcol]
            exact ih w ds hids hnd hnn hnodup h4
          · by_cases hrD : r ∈ w.depIds
            · -- already a dependency of the previous round: no addSub
              have haddDep : w.addDep d₀ =
                  ({ w with newDepIds := w.newDepIds ++ [r],
                            newDeps := w.newDeps ++ [r] }, d₀) := by
                simp [Watcher.addDep, hid₀, hrN, hrD]
              have hself : (ds.map fun e => if e.id = r then d₀ else e) = ds := by
                apply map_eq_self_of
                intro e he
                by_cases h : e.id = r
                · have : e = d₀ :=
                    nodup_map_inj Dep.id ds hids e he d₀ hd₀ (h.trans hid₀.symm)
                  simp [h, this]
                · simp [h]
              set w₁ : Watcher :=
                { w with newDepIds := w.newDepIds ++ [r],
                         newDeps := w.newDeps ++ [r] } with hw₁
              have hadd : addDepIn w ds r = (w₁, ds) := by
                simp only [addDepIn, hfind, haddDep]
                simp [hself]
              have hcol : collectDeps w ds (r :: rs) = collectDeps w₁ ds rs := by
                simp [collectDeps, hadd]
              rw [hcol]
              have C := ih w₁ ds hids hnd (by simp [hw₁, hnn])
                (nodup_append_singleton hnodup hrN)
                (by
                  intro d hd hsub
                  rcases h4 d hd hsub with h | h
                  · exact Or.inl h
                  · exact Or.inr (by simp [hw₁, h]))
              refine ⟨C.1, ⟨C.2.1.1, C.2.1.2.1, ?_⟩, C.2.2.1, ?_⟩
              · intro i hi
                exact C.2.1.2.2 i (by simp [hw₁, hi])
              · refine C.2.2.2.imp ?_
                rintro d d' ⟨hidd, hnd', hwiff, hx⟩
                refine ⟨hidd, hnd', ?_, hx⟩
                rw [hwiff]
                constructor
                · rintro (h | ⟨hf, hn, hdep⟩)
                  · exact Or.inl h
                  · refine Or.inr ⟨hf, fun hm => hn (by simp [hw₁, hm]), hdep⟩
                · rintro (h | ⟨hf, hn, hdep⟩)
                  · exact Or.inl h
                  · refine Or.inr ⟨hf, ?_, hdep⟩
                    simp only [hw₁]
                    simp only [List.mem_append, List.mem_singleton]
                    rintro (hm | rfl)
                    · exact hn hm
                    · exact hdep hrD
            · -- genuinely new dependency: addSub fires
              have haddDep : w.addDep d₀ =
                  ({ w with newDepIds := w.newDepIds ++ [r],
                            newDeps := w.newDeps ++ [r] }, d₀.addSub w.id) := by
                simp [Watcher.addDep, hid₀, hrN, hrD]
              set w₁ : Watcher :=
                { w with newDepIds := w.newDepIds ++ [r],
                         newDeps := w.newDeps ++ [r] } with hw₁
              set g : Dep → Dep := fun e => if e.id = r then d₀.addSub w.id else e
                with hg
              have hadd : addDepIn w ds r = (w₁, ds.map g) := by
                simp only [addDepIn, hfind, haddDep]
              have hw0 : w.id ∉ d₀.subs := by
                intro hmem
                rcases h4 d₀ hd₀ hmem with h | h
                · exact hrD (hid₀ ▸ h)
                · exact hrN (hid₀ ▸ h)
              have hidsg : (ds.map g).map Dep.id = ds.map Dep.id := by
                rw [List.map_map]
                apply map_eq_of
                intro e he
                by_cases h : e.id = r
                · simp [hg, h, Dep.addSub, hid₀]
                · simp [hg, h]
              have hndg : ∀ d ∈ ds.map g, d.subs.Nodup := by
                intro d hd
                obtain ⟨e, he, rfl⟩ := List.mem_map.mp hd
                by_cases h : e.id = r
                · have : e = d₀ :=
                    nodup_map_inj Dep.id ds hids e he d₀ hd₀ (h.trans hid₀.symm)
                  subst this
                  simp only [hg, if_pos h, Dep.addSub]
                  exact nodup_append_singleton (hnd e he) hw0
                · simp only [hg, if_neg h]
                  exact hnd e he
              have h4g : ∀ d ∈ ds.map g, w.id ∈ d.subs →
                  (d.id ∈ w₁.depIds ∨ d.id ∈ w₁.newDepIds) := by
                intro d hd hsub
                obtain ⟨e, he, rfl⟩ := List.mem_map.mp hd
                by_cases h : e.id = r
                · right
                  simp [hg, if_pos h, Dep.addSub, hid₀, hw₁]
                · simp only [hg, if_neg h] at hsub ⊢
                  rcases h4 e he hsub with hh | hh
                  · exact Or.inl (by simpa [hw₁] using hh)
                  · exact Or.inr (by simp [hw₁, hh])
              have hcol : collectDeps w ds (r :: rs) = collectDeps w₁ (ds.map g) rs := by
                simp [collectDeps, hadd]
              rw [hcol]
              have C := ih w₁ (ds.map g) (hidsg ▸ hids) hndg
                (by simp [hw₁, hnn]) (nodup_append_singleton hnodup hrN) h4g
              have hrfinal : r ∈ (collectDeps w₁ (ds.map g) rs).1.newDepIds :=
                C.2.1.2.2 r (by simp [hw₁])
              refine ⟨C.1, ⟨C.2.1.1, C.2.1.2.1, ?_⟩, C.2.2.1.trans hidsg, ?_⟩
              · intro i hi
                exact C.2.1.2.2 i (by simp [hw₁, hi])
              · have hmap : List.Forall₂ (fun e e1 => e1 = g e ∧ e.subs.Nodup ∧ e ∈ ds)
                    ds (ds.map g) := by
                  rw [List.forall₂_map_right_iff]
                  exact List.forall₂_same.mpr (fun d hd => ⟨rfl, hnd d hd, hd⟩)
                refine forall₂_comp ?_ hmap C.2.2.2
                rintro e e1 d' ⟨rfl, hend, hemem⟩ ⟨hidd, hnd', hwiff, hx⟩
                by_cases h : e.id = r
                · have heq : e = d₀ :=
                    nodup_map_inj Dep.id ds hids e hemem d₀ hd₀ (h.trans hid₀.symm)
                  subst heq
                  have hsub : (g e).subs = e.subs ++ [w.id] := by
                    simp [hg, if_pos h, Dep.addSub]
                  have hidg : (g e).id = e.id := by
                    simp [hg, if_pos h, Dep.addSub]
                  refine ⟨hidd.trans hidg, hnd', ?_, ?_⟩
                  · constructor
                    · intro _
                      exact Or.inr ⟨h ▸ hrfinal, h ▸ hrN, h ▸ hrD⟩
                    · intro _
                      rw [hwiff]
                      exact Or.inl (by simp [hsub])
                  · intro x hxne
                    rw [hx x hxne, hsub]
                    simp [hxne]
                · have hge : g e = e := by simp [hg, if_neg h]
                  rw [hge] at hidd hwiff hx
                  refine ⟨hidd, hnd', ?_, hx⟩
                  rw [hwiff]
                  constructor
                  · rintro (hh | ⟨hf, hn, hdep⟩)
                    · exact Or.inl hh
                    · refine Or.inr ⟨hf, fun hm => hn (by simp [hw₁, hm]), hdep⟩
                  · rintro (hh | ⟨hf, hn, hdep⟩)
                    · exact Or.inl hh
                    · refine Or.inr ⟨hf, ?_, hdep⟩
                      simp only [hw₁]
                      simp only [List.mem_append, List.mem_singleton]
                      rintro (hm | rfl)
                      · exact hn hm
                      · exact h rfl

end VueCore
namespace VueCore

lemma forall₂_with_mem_left {α β : Type} {R : α → β → Prop} :
    ∀ {l1 : List α} {l2 : List β}, List.Forall₂ R l1 l2 →
      List.Forall₂ (fun a b => a ∈ l1 ∧ R a b) l1 l2 := by
  intro l1 l2 h
  induction h with
  | nil => exact List.Forall₂.nil
  | cons hab htl ih =>
      refine List.Forall₂.cons ⟨by simp, hab⟩ (ih.imp ?_)
      rintro a b ⟨ha, hr⟩
      exact ⟨by simp [ha], hr⟩

lemma runCollect_spec (w : Watcher) (ds : List Dep) (reads : List DId)
    (hids : (ds.map Dep.id).Nodup)
    (hnd : ∀ d ∈ ds, d.subs.Nodup)
    (hrest : atRest w)
    (h4 : ∀ d ∈ ds, w.id ∈ d.subs → d.id ∈ w.deps) :
    ((runCollect w ds reads).1.id = w.id ∧
     (runCollect w ds reads).1.active = w.active ∧
     atRest (runCollect w ds reads).1) ∧
    ((runCollect w ds reads).2.map Dep.id = ds.map Dep.id) ∧
    List.Forall₂ (fun d d' => d'.id = d.id ∧ d'.subs.Nodup ∧
      (∀ x, x ≠ w.id → (x ∈ d'.subs ↔ x ∈ d.subs)) ∧
      (w.id ∈ d'.subs → d'.id ∈ (runCollect w ds reads).1.deps) ∧
      ((d.id ∈ w.deps → w.id ∈ d.subs) →
        (w.id ∈ d'.subs ↔ d'.id ∈ (runCollect w ds reads).1.deps)))
      ds (runCollect w ds reads).2 := by
  obtain ⟨hne, hni, hdi, hdnodup⟩ := hrest
  have C := collectDeps_spec reads w ds hids hnd (by rw [hne, hni])
    (by rw [hni]; exact List.nodup_nil)
    (fun d hd hs => Or.inl (hdi ▸ h4 d hd hs))
  set w₁ := (collectDeps w ds reads).1 with hw₁
  set mid := (collectDeps w ds reads).2 with hmid
  obtain ⟨⟨hC_id, hC_act, hC_deps, hC_depIds⟩, ⟨hC_nn, hC_nodup, _⟩,
    hC_ids, hC_rel⟩ := C
  have hndmid : ∀ d ∈ mid, d.subs.Nodup := by
    intro d hd
    obtain ⟨d0, _, hrel⟩ := forall₂_mem_right hC_rel hd
    exact hrel.2.1
  have hrc : runCollect w ds reads =
      ({ w₁ with depIds := w₁.newDepIds, newDepIds := [],
                 deps := w₁.newDeps, newDeps := [] },
        pruneList w₁.id w₁.newDepIds w₁.deps.reverse mid) := by
    simp [runCollect, Watcher.cleanupDeps, hw₁, hmid]
  have P := pruneList_spec w₁.id w₁.newDepIds (w₁.deps.reverse) mid hndmid
  rw [hrc]
  rw [hC_id] at P
  rw [hC_id]
  refine ⟨⟨rfl, by simp [hC_act], ?_⟩, ?_, ?_⟩
  · exact ⟨rfl, rfl, by simp [hC_nn], by simp [hC_nn, hC_nodup]⟩
  · have hP_ids : (pruneList w.id w₁.newDepIds w₁.deps.reverse mid).map Dep.id =
        mid.map Dep.id := by
      apply forall₂_map_eq
      exact P.imp (fun d d' hr => hr.1)
    simpa using hP_ids.trans hC_ids
  · simp only
    refine forall₂_comp ?_ (forall₂_with_mem_left hC_rel) P
    rintro d m d' ⟨hdm, hCrel⟩ hPrel
    obtain ⟨hid1, _, hw1, hx1⟩ := hCrel
    obtain ⟨hid2, hnd2, hw2, hx2⟩ := hPrel
    have hid : d'.id = d.id := hid2.trans hid1
    have hmemrev : ∀ i, i ∈ w₁.deps.reverse ↔ i ∈ w.deps := by
      intro i; rw [hC_deps, List.mem_reverse]
    refine ⟨hid, hnd2, ?_, ?_, ?_⟩
    · intro x hxne
      rw [hx2 x hxne, hx1 x hxne]
    · intro hmem
      rw [hC_nn, hid]
      have h2 := hw2.mp hmem
      have hm := hw1.mp h2.1
      rcases hm with hm | ⟨hf, _, _⟩
      · have hdd : d.id ∈ w.deps := h4 d hdm hm
        have hgoal : m.id ∈ w₁.newDepIds :=
          h2.2 (by rw [hid1]; exact (hmemrev d.id).mpr hdd)
        rw [hid1] at hgoal
        exact hgoal
      · exact hf
    · intro hbi
      rw [hC_nn, hid]
      constructor
      · intro hmem
        have h2 := hw2.mp hmem
        have hm := hw1.mp h2.1
        rcases hm with hm | ⟨hf, _, _⟩
        · have hdd : d.id ∈ w.deps := h4 d hdm hm
          have hgoal : m.id ∈ w₁.newDepIds :=
            h2.2 (by rw [hid1]; exact (hmemrev d.id).mpr hdd)
          rw [hid1] at hgoal
          exact hgoal
        · exact hf
      · intro hmem
        apply hw2.mpr
        refine ⟨?_, fun _ => by rw [hid1]; exact hmem⟩
        apply hw1.mpr
        by_cases hdep : d.id ∈ w.depIds
        · exact Or.inl (hbi (hdi ▸ hdep))
        · exact Or.inr ⟨hmem, by rw [hni]; simp, hdep⟩

end VueCore
namespace VueCore

lemma watcher_eq_of_id {ws : List Watcher} (hwids : (ws.map Watcher.id).Nodup)
    {x w : Watcher} (hx : x ∈ ws) (hw : w ∈ ws) (h : x.id = w.id) : x = w :=
  nodup_map_inj Watcher.id ws hwids x hx w hw h

lemma applyOp_inv (s : RSys) (h : Inv s) (o : Op) : Inv (s.applyOp o) := by
  obtain ⟨hids, hwids, hrest, hnd, h5⟩ := h
  cases o with
  | eval wid reads =>
      cases hfind : s.watchers.find? (fun w => w.id == wid) with
      | none =>
          have : s.applyOp (Op.eval wid reads) = s := by
            simp [RSys.applyOp, hfind]
          rw [this]
          exact ⟨hids, hwids, hrest, hnd, h5⟩
      | some w =>
          have hwmem := List.mem_of_find?_eq_some hfind
          have hwid : w.id = wid := by simpa using List.find?_some hfind
          have happ : s.applyOp (Op.eval wid reads) =
              { s with deps := (runCollect w s.deps reads).2,
                       watchers := s.watchers.map fun x =>
                         if x.id = wid then (runCollect w s.deps reads).1 else x } := by
            simp [RSys.applyOp, hfind]
          rw [happ]
          have R := runCollect_spec w s.deps reads hids hnd (hrest w hwmem)
            (fun d hd hs => (h5 w hwmem d hd).1 hs)
          obtain ⟨⟨hR_id, hR_act, hR_rest⟩, hR_ids, hR_rel⟩ := R
          set p1 := (runCollect w s.deps reads).1 with hp1
          set ds' := (runCollect w s.deps reads).2 with hds'
          have hwmap : (s.watchers.map fun x => if x.id = wid then p1 else x).map
              Watcher.id = s.watchers.map Watcher.id := by
            rw [List.map_map]
            apply map_eq_of
            intro x _
            by_cases hx : x.id = wid
            · simp [hx, hR_id, hwid]
            · simp [hx]
          refine ⟨?_, ?_, ?_, ?_, ?_⟩
          · rw [hR_ids]; exact hids
          · rw [hwmap]; exact hwids
          · intro y hy
            obtain ⟨x, hx, hxy⟩ := List.mem_map.mp hy
            by_cases hxid : x.id = wid
            · rw [if_pos hxid] at hxy
              rw [← hxy]
              exact hR_rest
            · rw [if_neg hxid] at hxy
              rw [← hxy]
              exact hrest x hx
          · intro d' hd'
            obtain ⟨d, _, hrel⟩ := forall₂_mem_right hR_rel hd'
            exact hrel.2.1
          · intro y hy d' hd'
            obtain ⟨x, hx, hxy⟩ := List.mem_map.mp hy
            obtain ⟨d, hdmem, hrel⟩ := forall₂_mem_right hR_rel hd'
            obtain ⟨hid, _, hothers, hsub1, hsub2⟩ := hrel
            by_cases hxid : x.id = wid
            · rw [if_pos hxid] at hxy
              subst hxy
              constructor
              · intro hmem
                rw [hR_id] at hmem
                exact hsub1 hmem
              · intro hact hmem
                have hxw : x = w := watcher_eq_of_id hwids hx hwmem (hxid.trans hwid.symm)
                have hwact : w.active = true := by rw [← hR_act]; exact hact
                have hbi : d.id ∈ w.deps → w.id ∈ d.subs :=
                  (h5 w hwmem d hdmem).2 hwact
                rw [hR_id]
                exact (hsub2 hbi).mpr hmem
            · rw [if_neg hxid] at hxy
              subst hxy
              have hxidne : x.id ≠ w.id := by rw [hwid]; exact hxid
              constructor
              · intro hmem
                rw [hid]
                exact (h5 x hx d hdmem).1 ((hothers x.id hxidne).mp hmem)
              · intro hact hmem
                rw [hid] at hmem
                exact (hothers x.id hxidne).mpr ((h5 x hx d hdmem).2 hact hmem)
  | teardown wid =>
      cases hfind : s.watchers.find? (fun w => w.id == wid) with
      | none =>
          have : s.applyOp (Op.teardown wid) = s := by
            simp [RSys.applyOp, hfind]
          rw [this]
          exact ⟨hids, hwids, hrest, hnd, h5⟩
      | some w =>
          have hwmem := List.mem_of_find?_eq_some hfind
          have hwid : w.id = wid := by simpa using List.find?_some hfind
          by_cases hact : w.active = true
          · have happ : s.applyOp (Op.teardown wid) =
                { deps := pruneList w.id [] w.deps.reverse s.deps,
                  vm := if s.vm.isBeingDestroyed then s.vm
                        else { s.vm with watchers := s.vm.watchers.erase w.id },
                  watchers := s.watchers.map fun x =>
                    if x.id = wid then { w with active := false } else x } := by
              simp [RSys.applyOp, hfind, Watcher.teardown, hact]
            rw [happ]
            have P := pruneList_spec w.id [] (w.deps.reverse) s.deps hnd
            have hwmap : (s.watchers.map fun x =>
                if x.id = wid then { w with active := false } else x).map
                Watcher.id = s.watchers.map Watcher.id := by
              rw [List.map_map]
              apply map_eq_of
              intro x _
              by_cases hx : x.id = wid
              · simp [hx, hwid]
              · simp [hx]
            refine ⟨?_, ?_, ?_, ?_, ?_⟩
            · have hP_ids : (pruneList w.id [] w.deps.reverse s.deps).map Dep.id =
                  s.deps.map Dep.id := by
                apply forall₂_map_eq
                exact P.imp (fun d d' hr => hr.1)
              rw [hP_ids]; exact hids
            · rw [hwmap]; exact hwids
            · intro y hy
              obtain ⟨x, hx, hxy⟩ := List.mem_map.mp hy
              by_cases hxid : x.id = wid
              · rw [if_pos hxid] at hxy
                rw [← hxy]
                obtain ⟨h1, h2, h3, h4'⟩ := hrest w hwmem
                exact ⟨h1, h2, h3, h4'⟩
              · rw [if_neg hxid] at hxy
                rw [← hxy]
                exact hrest x hx
            · intro d' hd'
              obtain ⟨d, _, hrel⟩ := forall₂_mem_right (forall₂_with_mem_left P) hd'
              exact hrel.2.2.1
            · intro y hy d' hd'
              obtain ⟨x, hx, hxy⟩ := List.mem_map.mp hy
              obtain ⟨d, hdmem, hrel⟩ :=
                forall₂_mem_right (forall₂_with_mem_left P) hd'
              obtain ⟨_, hid, _, hwiff, hothers⟩ := hrel
              by_cases hxid : x.id = wid
              · rw [if_pos hxid] at hxy
                subst hxy
                constructor
                · intro hmem
                  simp only at hmem
                  have h2 := hwiff.mp hmem
                  have hdd : d.id ∈ w.deps := (h5 w hwmem d hdmem).1 h2.1
                  exact absurd (h2.2 (List.mem_reverse.mpr hdd)) (by simp)
                · intro habs
                  simp at habs
              · rw [if_neg hxid] at hxy
                subst hxy
                have hxidne : x.id ≠ w.id := by rw [hwid]; exact hxid
                constructor
                · intro hmem
                  rw [hid]
                  exact (h5 x hx d hdmem).1 ((hothers x.id hxidne).mp hmem)
                · intro hact' hmem
                  rw [hid] at hmem
                  exact (hothers x.id hxidne).mpr ((h5 x hx d hdmem).2 hact' hmem)
          · have hactf : w.active = false := by
              cases hw : w.active
              · rfl
              · exact absurd hw hact
            have hmapself : (s.watchers.map fun x =>
                if x.id = wid then w else x) = s.watchers := by
              apply map_eq_self_of
              intro x hx
              by_cases hxid : x.id = wid
              · rw [if_pos hxid]
                exact (watcher_eq_of_id hwids hx hwmem (hxid.trans hwid.symm)).symm
              · rw [if_neg hxid]
            have happ : s.applyOp (Op.teardown wid) = s := by
              simp only [RSys.applyOp, hfind, Watcher.teardown, hactf]
              simp [hmapself]
            rw [happ]
            exact ⟨hids, hwids, hrest, hnd, h5⟩

lemma applyOps_inv (ops : List Op) : ∀ (s : RSys), Inv s → Inv (s.applyOps ops) := by
  induction ops with
  | nil => intro s h; exact h
  | cons o ops ih =>
      intro s h
      have hstep : s.applyOps (o :: ops) = (s.applyOp o).applyOps ops := rfl
      rw [hstep]
      exact ih _ (applyOp_inv s h o)

end VueCore
namespace VueCore

lemma collectDeps_nodup_newDepIds : ∀ (reads : List DId) (w : Watcher)
    (ds : List Dep), w.newDepIds.Nodup →
    (collectDeps w ds reads).1.newDepIds.Nodup := by
  intro reads
  induction reads with
  | nil => intro w ds h; exact h
  | cons r rs ih =>
      intro w ds h
      have hstep : collectDeps w ds (r :: rs) =
          collectDeps (addDepIn w ds r).1 (addDepIn w ds r).2 rs := by
        simp [collectDeps]
      rw [hstep]
      apply ih
      cases hfind : ds.find? (fun e => e.id == r) with
      | none =>
          have : addDepIn w ds r = (w, ds) := by simp [addDepIn, hfind]
          rw [this]
          exact h
      | some d₀ =>
          by_cases hrN : d₀.id ∈ w.newDepIds
          · have : (addDepIn w ds r).1 = w := by
              simp [addDepIn, hfind, Watcher.addDep, hrN]
            rw [this]
            exact h
          · by_cases hrD : d₀.id ∈ w.depIds
            · have : (addDepIn w ds r).1 =
                  { w with newDepIds := w.newDepIds ++ [d₀.id],
                           newDeps := w.newDeps ++ [d₀.id] } := by
                simp [addDepIn, hfind, Watcher.addDep, hrN, hrD]
              rw [this]
              exact nodup_append_singleton h hrN
            · have : (addDepIn w ds r).1 =
                  { w with newDepIds := w.newDepIds ++ [d₀.id],
                           newDeps := w.newDeps ++ [d₀.id] } := by
                simp [addDepIn, hfind, Watcher.addDep, hrN, hrD]
              rw [this]
              exact nodup_append_singleton h hrN

lemma evalNTimes_c3_fixed : ∀ n : Nat,
    evalNTimes c3state 2 [5] (n + 1) = c3fixedState := by
  intro n
  induction n with
  | zero => decide
  | succ n ih =>
      have hstep : evalNTimes c3state 2 [5] (n + 2) =
          (evalNTimes c3state 2 [5] (n + 1)).applyOp (Op.eval 2 [5]) := rfl
      rw [hstep, ih]
      decide

/-- C1 as stated is refuted by `teardown`: a completed
`eval` + `teardown` sequence leaves the subject in the observer's `deps`
while the observer is no longer subscribed, so the unconditional
biconditional fails. -/
theorem c1_counterexample :
    Inv c1state ∧
    ∃ w ∈ (c1state.applyOps [Op.eval 1 [1], Op.teardown 1]).watchers,
      ∃ d ∈ (c1state.applyOps [Op.eval 1 [1], Op.teardown 1]).deps,
        ¬ (w.id ∈ d.subs ↔ d.id ∈ w.deps) := by decide

/-- C1 (amended): in any well-formed system, after any completed sequence
of evaluation and teardown operations, every ACTIVE observer is in a
subject's subscriber list iff the subject is in the observer's deps
sequence (a torn-down observer keeps its stale `deps` list, so the
biconditional is restricted to active observers). -/
theorem c1_bidirectional_consistency (s : RSys) (ops : List Op) (h : Inv s) :
    ∀ w ∈ (s.applyOps ops).watchers, w.active = true →
      ∀ d ∈ (s.applyOps ops).deps, (w.id ∈ d.subs ↔ d.id ∈ w.deps) := by
  have hinv := applyOps_inv ops s h
  intro w hw hact d hd
  exact ⟨(hinv.2.2.2.2 w hw d hd).1, (hinv.2.2.2.2 w hw d hd).2 hact⟩

/-- Witness for `c1_bidirectional_consistency` at a concrete system and
operation sequence. -/
theorem c1_bidirectional_consistency_witness :
    Inv c1state ∧
    (∀ w ∈ (c1state.applyOps [Op.eval 1 [1]]).watchers, w.active = true →
      ∀ d ∈ (c1state.applyOps [Op.eval 1 [1]]).deps,
        (w.id ∈ d.subs ↔ d.id ∈ w.deps)) :=
  ⟨by decide, c1_bidirectional_consistency c1state [Op.eval 1 [1]] (by decide)⟩

/-- C2: after `cleanupDeps`, the watcher is removed from the subscribers of
every dep of the previous round absent from the new round; `deps`/`depIds`
become the just-collected `newDeps`/`newDepIds`, which are cleared; and in
the A-then-B scenario the watcher ends subscribed to B only. -/
theorem c2_cleanup_prunes_stale (w : Watcher) (ds : List Dep)
    (hnd : ∀ d ∈ ds, d.subs.Nodup) (hnn : w.newDeps = w.newDepIds) :
    (∀ d' ∈ (w.cleanupDeps ds).2, d'.id ∈ w.deps → d'.id ∉ w.newDeps →
      w.id ∉ d'.subs) ∧
    (w.cleanupDeps ds).1.deps = w.newDeps ∧
    (w.cleanupDeps ds).1.depIds = w.newDepIds ∧
    (w.cleanupDeps ds).1.newDeps = [] ∧
    (w.cleanupDeps ds).1.newDepIds = [] ∧
    (c2state.applyOps [Op.eval 1 [10], Op.eval 1 [20]]).deps =
      [⟨10, []⟩, ⟨20, [1]⟩] := by
  refine ⟨?_, rfl, rfl, rfl, rfl, by decide⟩
  intro d' hd' hdeps hnew
  have P := pruneList_spec w.id w.newDepIds (w.deps.reverse) ds hnd
  have hds : (w.cleanupDeps ds).2 = pruneList w.id w.newDepIds w.deps.reverse ds :=
    rfl
  rw [hds] at hd'
  obtain ⟨d, hdm, hrel⟩ := forall₂_mem_right P hd'
  obtain ⟨hid, hnd', hwiff, _⟩ := hrel
  intro hmem
  have h2 := hwiff.mp hmem
  have hinnew : d.id ∈ w.newDepIds :=
    h2.2 (List.mem_reverse.mpr (hid ▸ hdeps))
  apply hnew
  rw [hnn, hid]
  exact hinnew

/-- Witness for `c2_cleanup_prunes_stale` at a concrete mid-evaluation
watcher. -/
theorem c2_cleanup_prunes_stale_witness :
    (∀ d' ∈ (c2w.cleanupDeps c2ds).2, d'.id ∈ c2w.deps → d'.id ∉ c2w.newDeps →
      c2w.id ∉ d'.subs) ∧
    (c2w.cleanupDeps c2ds).1.deps = c2w.newDeps :=
  ⟨(c2_cleanup_prunes_stale c2w c2ds (by decide) (by decide)).1,
   (c2_cleanup_prunes_stale c2w c2ds (by decide) (by decide)).2.1⟩

/-- C3: `addDep` is idempotent within one evaluation — the new-dependency
id set stays duplicate-free under any read sequence, a dep already in the
new set is not touched again, a dep already held from the previous round is
recorded but not re-subscribed, and any number `n ≥ 1` of consecutive
evaluations reading the same subject leaves this watcher exactly once in
its subscriber list. -/
theorem c3_addDep_idempotent :
    (∀ (reads : List DId) (w : Watcher) (ds : List Dep), w.newDepIds.Nodup →
      (collectDeps w ds reads).1.newDepIds.Nodup) ∧
    (∀ (w : Watcher) (d : Dep), d.id ∈ w.newDepIds → w.addDep d = (w, d)) ∧
    (∀ (w : Watcher) (d : Dep), d.id ∉ w.newDepIds → d.id ∈ w.depIds →
      (w.addDep d).2 = d ∧
      (w.addDep d).1.newDepIds = w.newDepIds ++ [d.id]) ∧
    (∀ n, 1 ≤ n → (evalNTimes c3state 2 [5] n).deps = [⟨5, [2]⟩]) := by
  refine ⟨collectDeps_nodup_newDepIds, ?_, ?_, ?_⟩
  · intro w d hmem
    simp [Watcher.addDep, hmem]
  · intro w d hmem hdep
    simp [Watcher.addDep, hmem, hdep]
  · intro n hn
    cases n with
    | zero => exact absurd hn (by simp)
    | succ m =>
        rw [evalNTimes_c3_fixed m]
        rfl

/-- Witness for `c3_addDep_idempotent`: a duplicated read sequence and 100
consecutive evaluations. -/
theorem c3_addDep_idempotent_witness :
    (collectDeps c3w [] [7, 7, 8]).1.newDepIds.Nodup ∧
    (evalNTimes c3state 2 [5] 100).deps = [⟨5, [2]⟩] :=
  ⟨c3_addDep_idempotent.1 [7, 7, 8] c3w [] (by decide),
   c3_addDep_idempotent.2.2.2 100 (by decide)⟩

/-- C8: `teardown` is idempotent (a second call is a no-op); a first call
on an active watcher deactivates it, removes it from the owner's registry
unless the owner is being destroyed, and unsubscribes it from every dep in
`deps`; and after teardown no `update()` leads to a getter evaluation or a
callback invocation. -/
theorem c8_teardown_idempotent (w : Watcher) (ds : List Dep) (vm : Vm)
    (hnd : ∀ d ∈ ds, d.subs.Nodup) :
    ((w.teardown ds vm).1.teardown (w.teardown ds vm).2.1
        (w.teardown ds vm).2.2 = w.teardown ds vm) ∧
    (w.active = false → w.teardown ds vm = (w, ds, vm)) ∧
    (w.active = true →
      (w.teardown ds vm).1.active = false ∧
      (vm.isBeingDestroyed = false →
        (w.teardown ds vm).2.2.watchers = vm.watchers.erase w.id) ∧
      (vm.isBeingDestroyed = true → (w.teardown ds vm).2.2 = vm) ∧
      (∀ d' ∈ (w.teardown ds vm).2.1, d'.id ∈ w.deps → w.id ∉ d'.subs)) ∧
    (∀ g c, ((w.teardown ds vm).1.updateW g c).2 = UpdRes.markedDirty ∨
      ((w.teardown ds vm).1.updateW g c).2 = UpdRes.queued ∨
      ((w.teardown ds vm).1.updateW g c).2 =
        UpdRes.ranSync ⟨(w.teardown ds vm).1, false, none, [], false⟩) := by
  have hinact : (w.teardown ds vm).1.active = false := by
    by_cases h : w.active
    · simp [Watcher.teardown, h]
    · simp only [Bool.not_eq_true] at h
      simp [Watcher.teardown, h]
  refine ⟨?_, ?_, ?_, ?_⟩
  · generalize ht : w.teardown ds vm = t at hinact ⊢
    simp [Watcher.teardown, hinact]
  · intro h
    simp [Watcher.teardown, h]
  · intro h
    refine ⟨hinact, ?_, ?_, ?_⟩
    · intro hdes
      simp [Watcher.teardown, h, hdes]
    · intro hdes
      simp [Watcher.teardown, h, hdes]
    · intro d' hd' hdeps
      have hds : (w.teardown ds vm).2.1 =
          pruneList w.id [] w.deps.reverse ds := by
        simp [Watcher.teardown, h]
      rw [hds] at hd'
      have P := pruneList_spec w.id [] (w.deps.reverse) ds hnd
      obtain ⟨d, hdm, hrel⟩ := forall₂_mem_right P hd'
      obtain ⟨hid, _, hwiff, _⟩ := hrel
      intro hmem
      have h2 := hwiff.mp hmem
      exact absurd (h2.2 (List.mem_reverse.mpr (hid ▸ hdeps))) (by simp)
  · intro g c
    by_cases hl : (w.teardown ds vm).1.lazy
    · left
      simp [Watcher.updateW, hl]
    · by_cases hs : (w.teardown ds vm).1.sync
      · right; right
        simp only [Bool.not_eq_true] at hl
        simp [Watcher.updateW, hl, hs, Watcher.runW, hinact]
      · right; left
        simp only [Bool.not_eq_true] at hl hs
        simp [Watcher.updateW, hl, hs]

/-- Witness for `c8_teardown_idempotent` at a concrete watcher, store and
owner. -/
theorem c8_teardown_idempotent_witness :
    ((c8w.teardown c8ds c8vm).1.teardown (c8w.teardown c8ds c8vm).2.1
        (c8w.teardown c8ds c8vm).2.2 = c8w.teardown c8ds c8vm) ∧
    (c8w.teardown c8ds c8vm).2.2.watchers = c8vm.watchers.erase c8w.id ∧
    (∀ d' ∈ (c8w.teardown c8ds c8vm).2.1, d'.id ∈ c8w.deps →
      c8w.id ∉ d'.subs) :=
  ⟨(c8_teardown_idempotent c8w c8ds c8vm (by decide)).1,
   ((c8_teardown_idempotent c8w c8ds c8vm (by decide)).2.2.1 rfl).2.1 rfl,
   ((c8_teardown_idempotent c8w c8ds c8vm (by decide)).2.2.1 rfl).2.2.2⟩

end VueCore
